import Mathlib

/-!
Verification of the ArcCompanion data core (`src/modules/data_manager.py`).

The development shallowly embeds the data model and the operations of
`ItemDatabase` and `DataManager`:

* JSON documents are modeled by the inductive `Json`; JSON objects are
  association lists whose key lookup takes the first matching entry
  (Python dictionaries have unique keys, so this agrees with `dict` access).
* The progress file on disk is modeled by `FS` (destination file plus the
  `.tmp` sibling); file contents are modeled up to JSON decoding: a file
  holds either a complete serialized document (`FileContent.full`) or a
  truncated partial write (`FileContent.truncated`).  `json.dump` followed
  by `json.load` decodes back to the dumped value (a contract of the
  Python standard library, not of this repository), so a complete file is
  identified with the document it decodes to.
* Python's stable `sorted(xs, key=f)` is modeled by Mathlib's stable
  `List.insertionSort` with the relation `f a ≤ f b`.
* Fallible code (expressions that can raise) returns `Except String`.
-/

namespace ArcCompanion

/-! ### Association-list primitives (Python `dict` access) -/

/-- `d.get(k)` / `d[k]` on a Python dict: first entry with the given key. -/
def lookupKV {α : Type} : List (String × α) → String → Option α
  | [], _ => none
  | (a, v) :: tl, k => if a = k then some v else lookupKV tl k

/-- `d[k] = v` on a Python dict: replace the existing entry, else append. -/
def upsert {α : Type} : List (String × α) → String → α → List (String × α)
  | [], k, v => [(k, v)]
  | (a, w) :: tl, k, v => if a = k then (a, v) :: tl else (a, w) :: upsert tl k v

/-- `del d[k]` on a Python dict: drop the (unique) entry with the key. -/
def eraseKV {α : Type} : List (String × α) → String → List (String × α)
  | [], _ => []
  | (a, v) :: tl, k => if a = k then tl else (a, v) :: eraseKV tl k

/-- `list.index(x)` restricted to the found case: position of the first
occurrence, `none` when absent (`x in list` is `(indexInList l x).isSome`). -/
def indexInList : List String → String → Option Nat
  | [], _ => none
  | x :: tl, q => if x = q then some 0 else (indexInList tl q).map (· + 1)

theorem lookupKV_upsert {α : Type} (ch : List (String × α)) (k : String) (v : α)
    (k2 : String) :
    lookupKV (upsert ch k v) k2 = if k = k2 then some v else lookupKV ch k2 := by
  induction ch with
  | nil =>
    by_cases h : k = k2 <;> simp [upsert, lookupKV, h]
  | cons hd tl ih =>
    obtain ⟨a, w⟩ := hd
    by_cases h1 : a = k
    · subst h1
      by_cases h2 : a = k2
      · subst h2
        simp [upsert, lookupKV]
      · simp [upsert, lookupKV, h2]
    · by_cases h2 : a = k2
      · subst h2
        have hk2 : ¬ k = a := fun h => h1 h.symm
        simp [upsert, lookupKV, h1, hk2]
      · simp [upsert, lookupKV, h1, h2, ih]

theorem indexInList_lt_length {order : List String} {q : String} {i : Nat}
    (h : indexInList order q = some i) : i < order.length := by
  induction order generalizing i with
  | nil => simp [indexInList] at h
  | cons x tl ih =>
    by_cases hx : x = q
    · simp [indexInList, hx] at h
      simp [List.length_cons]
      omega
    · simp [indexInList, hx] at h
      obtain ⟨j, hj, rfl⟩ := h
      have := ih hj
      simp [List.length_cons]
      omega

/-! ### Python string primitives used by the code -/

/-- Python whitespace as stripped by `str.strip()` (ASCII range; the
Unicode space characters behave identically and never occur in the data). -/
def pyIsSpace (c : Char) : Bool :=
  c == ' ' || c == '\t' || c == '\n' || c == '\r' || c == '\x0b' || c == '\x0c'

/-- Python `str.strip()`: remove leading and trailing whitespace. -/
def pyStrip (s : String) : String :=
  String.mk (((s.toList.dropWhile pyIsSpace).reverse.dropWhile pyIsSpace).reverse)

/-- Does `pat` occur at the head of `l`? (helper for substring search). -/
def startsWithList : List Char → List Char → Bool
  | [], _ => true
  | _ :: _, [] => false
  | a :: as, b :: bs => a == b && startsWithList as bs

/-- Python `sub in s` on strings: substring occurrence. -/
def hasSubList (sub : List Char) : List Char → Bool
  | [] => sub.isEmpty
  | c :: tl => startsWithList sub (c :: tl) || hasSubList sub tl

/-- Python `sub in s` for strings. -/
def pyContains (s sub : String) : Bool :=
  hasSubList sub.toList s.toList

/-- Python `s.replace(sub, repl)` (all non-overlapping occurrences, left to
right); fuel-indexed structural recursion, the fuel `s.length` is always
sufficient because every step consumes at least one character. -/
def replaceSubFuel (sub repl : List Char) : Nat → List Char → List Char
  | _, [] => []
  | 0, hay => hay
  | fuel + 1, c :: tl =>
    if !sub.isEmpty && startsWithList sub (c :: tl) then
      repl ++ replaceSubFuel sub repl fuel (List.drop sub.length (c :: tl))
    else
      c :: replaceSubFuel sub repl fuel tl

/-- Python `s.replace(sub, repl)` for a non-empty pattern `sub`. -/
def pyReplace (s sub repl : String) : String :=
  String.mk (replaceSubFuel sub.toList repl.toList s.toList.length s.toList)

/-- Python `s.replace('_', ' ')` as used by the localization fallback. -/
def underscoresToSpaces (s : String) : String :=
  String.mk (s.toList.map (fun c => if c == '_' then ' ' else c))

/-- Python `str.title()`: a cased (alphabetic) character is uppercased when
it follows a non-cased character and lowercased otherwise. -/
def pyTitleGo : Bool → List Char → List Char
  | _, [] => []
  | prevCased, c :: tl =>
    if c.isAlpha then
      (if prevCased then c.toLower else c.toUpper) :: pyTitleGo true tl
    else
      c :: pyTitleGo false tl

/-- Python `str.title()`. -/
def pyTitle (s : String) : String :=
  String.mk (pyTitleGo false s.toList)

/-! ### JSON documents -/

/-- JSON values, as produced by `json.load`.  Objects are ordered
association lists with unique keys (Python preserves insertion order);
numbers are integers (the progress document stores only counts, levels and
flags). -/
inductive Json where
  | null
  | bool (b : Bool)
  | num (n : Int)
  | str (s : String)
  | arr (xs : List Json)
  | obj (kvs : List (String × Json))

/-- Python truthiness of a JSON value (`if x:`): `None`, `False`, `0`, `''`,
`[]` and `{}` are falsy. -/
def Json.truthy : Json → Bool
  | .null => false
  | .bool b => b
  | .num n => n != 0
  | .str s => !(s == "")
  | .arr xs => !xs.isEmpty
  | .obj kvs => !kvs.isEmpty

/-- Key lookup in a JSON object (`none` on non-objects and missing keys). -/
def Json.lookup : Json → String → Option Json
  | .obj kvs, k => lookupKV kvs k
  | _, _ => none

/-! ### The on-disk progress store (`DataManager.save_user_progress`,
`DataManager._load_json`) -/

/-- Contents of one file: either a fully written serialized document or a
truncated partial write (interrupted `json.dump`). -/
inductive FileContent where
  | truncated
  | full (doc : Json)

/-- The slice of the file system touched by the progress store: the
destination `progress.json` and the temporary `progress.json.tmp`
(`none` = the file does not exist). -/
structure FS where
  dest : Option FileContent
  temp : Option FileContent

/-- Points inside the `try` block of `save_user_progress` at which the
raised exception is modeled: opening the temp file, during `json.dump`,
during `flush`/`fsync`, and during `os.replace` (which is atomic, so a
failed replace leaves the destination unchanged).  No statement after
`os.replace` can raise, so there is no post-replace exception point. -/
inductive ExnPoint where
  | atOpen
  | atWrite
  | atSync
  | atReplace

/-- Points at which the process may be killed (no cleanup runs). -/
inductive CrashPoint where
  | beforeOpen
  | afterOpen
  | midWrite
  | afterSync
  | afterReplace

/-- One execution of `save_user_progress`: full success, a Python exception
caught by the `except` branch, or a process crash. -/
inductive SaveOutcome where
  | success
  | exn (p : ExnPoint)
  | crash (p : CrashPoint)

/-- State of the file system at the moment an exception is raised, before
the `except` branch runs.  A failed `open` creates no file; a failed
`json.dump` leaves a truncated temp file; later failures leave the fully
written temp file; the atomic `os.replace` leaves the destination
untouched when it fails. -/
def stateAtExn (doc : Json) (fs : FS) : ExnPoint → FS
  | .atOpen => fs
  | .atWrite => { fs with temp := some .truncated }
  | .atSync => { fs with temp := some (.full doc) }
  | .atReplace => { fs with temp := some (.full doc) }

/-- The `except` branch: `if os.path.exists(tmp): os.remove(tmp)` (the
nested `try`/`except pass` around `os.remove` is modeled as the removal of
the existing sibling file succeeding). -/
def cleanupTemp (fs : FS) : FS :=
  { fs with temp := none }

/-- `DataManager.save_user_progress`: write the serialized document to
`progress.json.tmp`, `flush` + `fsync` it, then atomically `os.replace` it
over `progress.json`; on an exception, remove the temp artifact. -/
def save_user_progress (doc : Json) (fs : FS) : SaveOutcome → FS
  | .success => { dest := some (.full doc), temp := none }
  | .exn p => cleanupTemp (stateAtExn doc fs p)
  | .crash p =>
    match p with
    | .beforeOpen => fs
    | .afterOpen => { fs with temp := some .truncated }
    | .midWrite => { fs with temp := some .truncated }
    | .afterSync => { fs with temp := some (.full doc) }
    | .afterReplace => { dest := some (.full doc), temp := none }

/-- `DataManager._load_json(filepath, default)`: a missing file and a file
that fails to parse both return `default or {}` — note the Python `or`:
a falsy default (such as `[]`) is replaced by `{}`. -/
def load_json (file : Option FileContent) (default : Option Json) : Json :=
  match file with
  | some (.full j) => j
  | some .truncated =>
    match default with
    | none => .obj []
    | some d => if d.truthy then d else .obj []
  | none =>
    match default with
    | none => .obj []
    | some d => if d.truthy then d else .obj []

/-- C2: `save_user_progress` writes the serialized state to a temp file,
fsyncs it, then atomically replaces the destination; on any exception the
temp artifact is removed and the destination is untouched, and after any
save attempt — including one interrupted between the temp-file write and
the replace — the destination holds either the previous complete state or
the new complete state, never a partial write. -/
theorem save_user_progress_atomic (doc prev : Json) (fs : FS) (o : SaveOutcome)
    (hPrev : fs.dest = none ∨ fs.dest = some (.full prev)) :
    ((save_user_progress doc fs o).dest = fs.dest ∨
      (save_user_progress doc fs o).dest = some (.full doc)) ∧
    (save_user_progress doc fs o).dest ≠ some .truncated ∧
    (∀ p, o = .exn p →
      (save_user_progress doc fs o).temp = none ∧
      (save_user_progress doc fs o).dest = fs.dest) ∧
    (∀ p, o = .crash p → p ≠ .afterReplace →
      (save_user_progress doc fs o).dest = fs.dest) := by
  refine ⟨?_, ?_, ?_, ?_⟩
  · cases o with
    | success => exact Or.inr rfl
    | exn p => cases p <;> exact Or.inl rfl
    | crash p => cases p <;> first | exact Or.inl rfl | exact Or.inr rfl
  · have hne : fs.dest ≠ some FileContent.truncated := by
      rcases hPrev with h | h <;> simp [h]
    cases o with
    | success => simp [save_user_progress]
    | exn p => cases p <;> simpa [save_user_progress, cleanupTemp, stateAtExn] using hne
    | crash p => cases p <;> simp [save_user_progress] <;> exact hne
  · rintro p rfl
    cases p <;> exact ⟨rfl, rfl⟩
  · rintro p rfl hp
    cases p <;> first | rfl | exact absurd rfl hp

/-- Concrete file-system state for the C2 witness: a complete destination
and no temp file. -/
def fsBefore : FS := ⟨some (.full (.obj [])), none⟩

/-- Concrete new document for the C2 witness. -/
def newDoc : Json := .str "new"

/-- C2 witness: a failed `os.replace` over an existing complete
destination, applied through the theorem. -/
theorem save_user_progress_atomic_witness :
    (fsBefore.dest = none ∨ fsBefore.dest = some (.full (.obj []))) ∧
    (((save_user_progress newDoc fsBefore (.exn .atReplace)).dest = fsBefore.dest ∨
        (save_user_progress newDoc fsBefore (.exn .atReplace)).dest
          = some (.full newDoc)) ∧
      (save_user_progress newDoc fsBefore (.exn .atReplace)).dest
          ≠ some .truncated ∧
      (∀ p, SaveOutcome.exn .atReplace = .exn p →
        (save_user_progress newDoc fsBefore (.exn .atReplace)).temp = none ∧
        (save_user_progress newDoc fsBefore (.exn .atReplace)).dest
          = fsBefore.dest) ∧
      (∀ p, SaveOutcome.exn .atReplace = .crash p → p ≠ .afterReplace →
        (save_user_progress newDoc fsBefore (.exn .atReplace)).dest
          = fsBefore.dest)) :=
  ⟨Or.inr rfl,
    save_user_progress_atomic newDoc (.obj []) fsBefore (.exn .atReplace)
      (Or.inr rfl)⟩

/-- C3: saving any well-formed progress document and loading it back is the
identity — in particular every top-level key, recognized or not, round
trips unchanged (the code dumps and parses the whole document without any
schema filtering). -/
theorem save_then_load_roundtrip (s : Json) (fs : FS) :
    load_json (save_user_progress s fs .success).dest (some (.obj [])) = s ∧
    (∀ kvs, s = .obj kvs →
      ∀ k, (load_json (save_user_progress s fs .success).dest
              (some (.obj []))).lookup k = s.lookup k) := by
  refine ⟨rfl, ?_⟩
  rintro kvs rfl k
  rfl

/-- C3 witness: round trip of a document with an unrecognized top-level
key, applied through the theorem. -/
theorem save_then_load_roundtrip_witness :
    load_json
        (save_user_progress (.obj [("unknown_key", .num 7)]) ⟨none, none⟩
          .success).dest (some (.obj []))
      = .obj [("unknown_key", .num 7)] ∧
    (∀ kvs, (Json.obj [("unknown_key", .num 7)]) = .obj kvs →
      ∀ k, (load_json
              (save_user_progress (.obj [("unknown_key", .num 7)]) ⟨none, none⟩
                .success).dest (some (.obj []))).lookup k
            = (Json.obj [("unknown_key", .num 7)]).lookup k) :=
  save_then_load_roundtrip (.obj [("unknown_key", .num 7)]) ⟨none, none⟩

/-- C9: evaluation of `_load_json` at the failing input.  With the projects
file absent and the caller-supplied default `[]` (as at
`self.project_data = self._load_json(Constants.PROJECTS_FILE, [])`), the
code returns `{}` — `default or {}` discards the falsy list default — and
`{}` is not the supplied `[]`.  A missing progress file with default `{}`
still yields the empty state. -/
theorem load_json_missing_falsy_default :
    load_json none (some (.arr [])) = .obj [] ∧
    Json.obj [] ≠ Json.arr [] ∧
    load_json none (some (.obj [])) = .obj [] :=
  ⟨rfl, fun h => Json.noConfusion h, rfl⟩

/-! ### Note handling (`DataManager.get_item_note` / `set_item_note`)

The progress document is its top-level association list.  `set_item_note`
also calls `save_user_progress` after mutating; the persisted document is
exactly the returned in-memory state, so the persistence side is covered
by the store theorems above. -/

/-- `DataManager.get_item_note`: read
`user_progress.get('item_notes', {}).get(item_id, "")`.  A stored
`item_notes` value that is not a dict would make `.get` raise
(`AttributeError`), hence the `Except`. -/
def get_item_note (prog : List (String × Json)) (item_id : String) :
    Except String Json :=
  match (lookupKV prog "item_notes").getD (.obj []) with
  | .obj kvs => .ok ((lookupKV kvs item_id).getD (.str ""))
  | _ => .error "AttributeError"

/-- `DataManager.set_item_note`: create `item_notes` when missing; store
the stripped note when `note and note.strip()` is truthy, else delete the
entry for the id when present. -/
def set_item_note (prog : List (String × Json)) (item_id note : String) :
    Except String (List (String × Json)) :=
  let prog1 :=
    if (lookupKV prog "item_notes").isSome then prog
    else upsert prog "item_notes" (.obj [])
  match lookupKV prog1 "item_notes" with
  | some (.obj kvs) =>
    if note ≠ "" ∧ pyStrip note ≠ "" then
      .ok (upsert prog1 "item_notes" (.obj (upsert kvs item_id (.str (pyStrip note)))))
    else
      .ok (upsert prog1 "item_notes" (.obj (eraseKV kvs item_id)))
  | _ => .error "TypeError"

theorem lookupKV_eq_none {α : Type} {l : List (String × α)} {k : String}
    (h : k ∉ l.map Prod.fst) : lookupKV l k = none := by
  induction l with
  | nil => rfl
  | cons hd tl ih =>
    obtain ⟨a, v⟩ := hd
    simp only [List.map_cons, List.mem_cons] at h
    push_neg at h
    have ha : ¬ a = k := fun hc => h.1 hc.symm
    simp [lookupKV, ha, ih h.2]

theorem lookupKV_eraseKV_self {α : Type} {l : List (String × α)} {k : String}
    (h : (l.map Prod.fst).Nodup) : lookupKV (eraseKV l k) k = none := by
  induction l with
  | nil => rfl
  | cons hd tl ih =>
    obtain ⟨a, v⟩ := hd
    simp only [List.map_cons, List.nodup_cons] at h
    by_cases ha : a = k
    · subst ha
      simpa [eraseKV] using lookupKV_eq_none h.1
    · simp [eraseKV, lookupKV, ha, ih h.2]

theorem pyStrip_eq_empty_iff (s : String) :
    pyStrip s = "" ↔ ∀ c ∈ s.toList, pyIsSpace c = true := by
  unfold pyStrip
  constructor
  · intro h c hc
    have h0 : (((s.toList.dropWhile pyIsSpace).reverse.dropWhile
        pyIsSpace).reverse) = [] := by
      have := congrArg String.toList h
      simpa using this
    rw [List.reverse_eq_nil_iff, List.dropWhile_eq_nil_iff] at h0
    have hAllDrop : ∀ x ∈ s.toList.dropWhile pyIsSpace, pyIsSpace x = true := by
      intro x hx
      exact h0 x (List.mem_reverse.mpr hx)
    have : s.toList = s.toList.takeWhile pyIsSpace ++ s.toList.dropWhile pyIsSpace :=
      (List.takeWhile_append_dropWhile (p := pyIsSpace) (l := s.toList)).symm
    rw [this] at hc
    rcases List.mem_append.mp hc with hl | hr
    · exact List.mem_takeWhile_imp hl
    · exact hAllDrop c hr
  · intro h
    have h1 : s.toList.dropWhile pyIsSpace = [] :=
      List.dropWhile_eq_nil_iff.mpr (fun c hc => h c hc)
    rw [h1]
    rfl

theorem pyStrip_of_empty : pyStrip "" = "" := rfl

/-- C10: for a note with at least one non-whitespace character, setting
then getting yields the whitespace-stripped note; for a whitespace-only
(or empty) note, setting removes any stored note for the id and a
subsequent get yields the empty string.  (`get_item_note` is translated
as a pure read — it performs no state update.) -/
theorem set_get_item_note (prog : List (String × Json)) (item_id note : String)
    (hWF : ∀ j, lookupKV prog "item_notes" = some j →
      ∃ kvs, j = Json.obj kvs ∧ (kvs.map Prod.fst).Nodup) :
    (note.toList.any (fun c => !pyIsSpace c) = true →
      ∃ prog2, set_item_note prog item_id note = .ok prog2 ∧
        get_item_note prog2 item_id = .ok (.str (pyStrip note))) ∧
    (note.toList.any (fun c => !pyIsSpace c) = false →
      ∃ prog2, set_item_note prog item_id note = .ok prog2 ∧
        get_item_note prog2 item_id = .ok (.str "") ∧
        ∀ kvs, lookupKV prog2 "item_notes" = some (Json.obj kvs) →
          lookupKV kvs item_id = none) := by
  obtain ⟨kvs0, hkvs0, hnodup⟩ :
      ∃ kvs0,
        lookupKV
          (if (lookupKV prog "item_notes").isSome then prog
           else upsert prog "item_notes" (.obj [])) "item_notes"
          = some (Json.obj kvs0) ∧ (kvs0.map Prod.fst).Nodup := by
    cases hl : lookupKV prog "item_notes" with
    | none =>
      refine ⟨[], ?_, by simp⟩
      simp [hl, lookupKV_upsert]
    | some j =>
      obtain ⟨kvs, rfl, hnd⟩ := hWF j hl
      exact ⟨kvs, by simp [hl], hnd⟩
  constructor
  · intro hny
    have hstrip : pyStrip note ≠ "" := by
      intro hc
      rw [pyStrip_eq_empty_iff] at hc
      rcases List.any_eq_true.mp hny with ⟨c, hc1, hc2⟩
      simp [hc c hc1] at hc2
    have hnote : note ≠ "" := by
      intro hc
      subst hc
      exact hstrip pyStrip_of_empty
    have hset : set_item_note prog item_id note
        = .ok (upsert
            (if (lookupKV prog "item_notes").isSome then prog
             else upsert prog "item_notes" (.obj []))
            "item_notes" (.obj (upsert kvs0 item_id (.str (pyStrip note))))) := by
      simp only [set_item_note, hkvs0]
      simp [hnote, hstrip]
    refine ⟨_, hset, ?_⟩
    simp [get_item_note, lookupKV_upsert]
  · intro hny
    have hstrip : pyStrip note = "" := by
      rw [pyStrip_eq_empty_iff]
      intro c hc
      by_contra hcc
      have hT : note.toList.any (fun c => !pyIsSpace c) = true :=
        List.any_eq_true.mpr ⟨c, hc, by simp [hcc]⟩
      rw [hny] at hT
      exact Bool.noConfusion hT
    have hcond : ¬ (note ≠ "" ∧ pyStrip note ≠ "") := by
      intro h
      exact h.2 hstrip
    have hset : set_item_note prog item_id note
        = .ok (upsert
            (if (lookupKV prog "item_notes").isSome then prog
             else upsert prog "item_notes" (.obj []))
            "item_notes" (.obj (eraseKV kvs0 item_id))) := by
      simp only [set_item_note, hkvs0]
      simp [hcond]
    refine ⟨_, hset, ?_, ?_⟩
    · simp [get_item_note, lookupKV_upsert, lookupKV_eraseKV_self hnodup]
    · intro kvs hk
      rw [lookupKV_upsert] at hk
      simp at hk
      rw [← hk]
      exact lookupKV_eraseKV_self hnodup

/-- C10 witness: set then get of a padded note on the empty progress
document, applied through the theorem. -/
theorem set_get_item_note_witness :
    (∀ j, lookupKV ([] : List (String × Json)) "item_notes" = some j →
      ∃ kvs, j = Json.obj kvs ∧ (kvs.map Prod.fst).Nodup) ∧
    ((" hi ".toList.any (fun c => !pyIsSpace c) = true →
      ∃ prog2, set_item_note [] "itm1" " hi " = .ok prog2 ∧
        get_item_note prog2 "itm1" = .ok (.str (pyStrip " hi "))) ∧
    (" hi ".toList.any (fun c => !pyIsSpace c) = false →
      ∃ prog2, set_item_note [] "itm1" " hi " = .ok prog2 ∧
        get_item_note prog2 "itm1" = .ok (.str "") ∧
        ∀ kvs, lookupKV prog2 "item_notes" = some (Json.obj kvs) →
          lookupKV kvs "itm1" = none)) :=
  ⟨fun j h => by simp [lookupKV] at h,
    set_get_item_note [] "itm1" " hi " (fun j h => by simp [lookupKV] at h)⟩

/-! ### Localization (`DataManager.get_localized_name`) -/

/-- The slice of an item record consulted by `get_localized_name`: the
canonical `name` set at load time (`none` when the key is absent) and the
per-language `names` table.  An entirely empty record — the one case where
the Python `if not item:` guard fires for a directly passed dict — returns
"Unknown" on both the guard path and the lookup path, so the guard needs
no separate modeling. -/
structure LocItem where
  name : Option String := none
  names : List (String × String) := []
deriving DecidableEq, Repr

/-- The `item_identifier` argument: an id string, an item dict, or any
other value (which resolves to no item). -/
inductive ItemIdent where
  | byStr (s : String)
  | byDict (it : LocItem)
  | otherVal
deriving DecidableEq, Repr

/-- `DataManager.get_localized_name`, translated from the source: resolve
the identifier (id strings through `id_to_item_map`), fall back to a
prettified id for unresolved strings, then return the language entry, the
canonical name, or "Unknown". -/
def get_localized_name (id_to_item_map : List (String × LocItem))
    (ident : ItemIdent) (lang_code : String) : String :=
  let item : Option LocItem :=
    match ident with
    | .byDict it => some it
    | .byStr s => lookupKV id_to_item_map s
    | .otherVal => none
  match item with
  | none =>
    match ident with
    | .byStr s => pyTitle (underscoresToSpaces s)
    | _ => "Unknown"
  | some it =>
    match lookupKV it.names lang_code with
    | some v => v
    | none =>
      match it.name with
      | some n => n
      | none => "Unknown"

/-- The name of a resolved item per the specification: the requested
language entry when present, else the canonical name, else "Unknown". -/
def specNameOfItem (it : LocItem) (lang_code : String) : String :=
  match lookupKV it.names lang_code with
  | some v => v
  | none => it.name.getD "Unknown"

/-- `get_localized_name` per the specification's words: resolve via the
id map for strings and directly for items; unresolved strings become the
separator-replaced, title-cased identifier; anything else unresolved is
"Unknown". -/
def specLocalizedName (id_to_item_map : List (String × LocItem))
    (ident : ItemIdent) (lang_code : String) : String :=
  match ident with
  | .byStr s =>
    match lookupKV id_to_item_map s with
    | none => pyTitle (underscoresToSpaces s)
    | some it => specNameOfItem it lang_code
  | .byDict it => specNameOfItem it lang_code
  | .otherVal => "Unknown"

/-- C7: `get_localized_name` resolves exactly as specified — id strings
through the id map with a prettified (separator-replaced, title-cased)
fallback instead of a failure, and resolved items through the language
table, then the canonical name, then the literal "Unknown". -/
theorem get_localized_name_spec (id_to_item_map : List (String × LocItem))
    (ident : ItemIdent) (lang_code : String) :
    get_localized_name id_to_item_map ident lang_code
      = specLocalizedName id_to_item_map ident lang_code := by
  cases ident with
  | byStr s =>
    simp only [get_localized_name, specLocalizedName, specNameOfItem]
    cases h : lookupKV id_to_item_map s with
    | none => simp [h]
    | some it =>
      simp only [h]
      cases h2 : lookupKV it.names lang_code with
      | some v => simp [h2]
      | none => cases h3 : it.name <;> simp [h2, h3]
  | byDict it =>
    simp only [get_localized_name, specLocalizedName, specNameOfItem]
    cases h2 : lookupKV it.names lang_code with
    | some v => simp [h2]
    | none => cases h3 : it.name <;> simp [h2, h3]
  | otherVal => rfl

/-! ### Requirement resolvers (`DataManager.find_hideout_requirements`,
`DataManager.find_project_requirements`)

The resolvers consult only the `id` field of the resolved item, the
station/project records, and the progress subtrees; the structures below
carry exactly the fields the code reads, with the defaults the code's
`.get(..., default)` calls supply for missing keys. -/

/-- Requirement classification emitted by the resolvers. -/
inductive ReqKind where
  | next
  | future
deriving DecidableEq, Repr

/-- One entry of a `requirementItemIds` list (`req.get('itemId')`,
`req.get('quantity', 0)`). -/
structure Requirement where
  itemId : Option String := none
  quantity : Int := 0
deriving DecidableEq, Repr

/-- One entry of a station's `levels` list (`lvl_info.get('level', 0)`,
`lvl_info.get('requirementItemIds', [])`). -/
structure LevelInfo where
  level : Int := 0
  requirementItemIds : List Requirement := []
deriving DecidableEq, Repr

/-- A hideout station record after the constructor's `en` name
normalization (`station.get('id')`, `station.get('name')`,
`station.get('levels', [])`). -/
structure Station where
  id : Option String := none
  name : String := ""
  levels : List LevelInfo := []
deriving DecidableEq, Repr

/-- The slice of an item record the resolvers consult (`'id' in item`,
`item['id']`); an item with no id participates in nothing. -/
structure Item where
  id : Option String := none
deriving DecidableEq, Repr

/-- `DataManager.get_item_by_name`: direct dictionary lookup. -/
def get_item_by_name (items : List (String × Item)) (name : String) :
    Option Item :=
  lookupKV items name

/-- The progress slices read by the hideout resolver: the integer-valued
per-station-id top-level keys (`user_progress.get(station_id, 0)`) and the
`hideout_inventory` subtree (station id → level string → item id → count). -/
structure HideoutProgress where
  station_levels : List (String × Int) := []
  hideout_inventory : List (String × List (String × List (String × Int))) := []
deriving DecidableEq, Repr

/-- `self.user_progress.get(station.get('id'), 0)`: a station with no id
reads the key `None`, which a JSON-parsed progress object cannot contain,
so the default 0 results. -/
def currentLevel (prog : HideoutProgress) (sid : Option String) : Int :=
  match sid with
  | some s => (lookupKV prog.station_levels s).getD 0
  | none => 0

/-- `h_inv.get(sid, {}).get(str(lvl), {}).get(item_id, 0)`. -/
def hideoutOwned (prog : HideoutProgress) (sid : Option String) (lvl : Int)
    (item_id : String) : Int :=
  match sid with
  | none => 0
  | some s =>
    (lookupKV ((lookupKV ((lookupKV prog.hideout_inventory s).getD [])
      (toString lvl)).getD []) item_id).getD 0

/-- The f-string `f"{sname} (Lvl {lvl}): x{rem}"`. -/
def mkLabel (sname : String) (lvl rem : Int) : String :=
  s!"{sname} (Lvl {lvl}): x{rem}"

/-- The f-string `f"{pname} (Ph{pnum}): x{rem}"`. -/
def mkPhaseLabel (pname : String) (pnum rem : Int) : String :=
  s!"{pname} (Ph{pnum}): x{rem}"

/-- `DataManager.find_hideout_requirements`, translated from the source:
resolve the target by name, bail out to `[]` without an item or id, then
scan stations in declaration order and levels in declared order, skipping
levels at or below the user's current station level, and emit a labeled
entry for every matching requirement with positive remainder. -/
def find_hideout_requirements (items : List (String × Item))
    (hideout_data : List Station) (prog : HideoutProgress)
    (item_name : String) : List (String × ReqKind) :=
  match get_item_by_name items item_name with
  | none => []
  | some target =>
    match target.id with
    | none => []
    | some tid =>
      hideout_data.flatMap (fun station =>
        let cur_lvl := currentLevel prog station.id
        station.levels.flatMap (fun lvl_info =>
          if lvl_info.level ≤ cur_lvl then []
          else
            let req_type : ReqKind :=
              if lvl_info.level = cur_lvl + 1 then .next else .future
            lvl_info.requirementItemIds.filterMap (fun req =>
              if req.itemId = some tid then
                let rem := req.quantity -
                  hideoutOwned prog station.id lvl_info.level tid
                if 0 < rem then
                  some (mkLabel station.name lvl_info.level rem, req_type)
                else none
              else none)))

/-- One outstanding requirement at tier granularity, per the
specification: the tier (level or phase) number, the positive remainder,
and the `next`/`future` classification. -/
structure TierEntry where
  tier : Int
  remaining : Int
  kind : ReqKind
deriving DecidableEq, Repr

/-- Scan of one tier's requirement list for the target id, per the
specification: `remaining = required − owned`, emit only positive
remainders, classify `next` iff `tier = current + 1`. -/
def tierReqScan (cur : Int) (owned : Int → Int) (tid : String)
    (t : Int × List Requirement) : List TierEntry :=
  t.2.filterMap (fun req =>
    if req.itemId = some tid then
      if 0 < req.quantity - owned t.1 then
        some { tier := t.1, remaining := req.quantity - owned t.1,
               kind := if t.1 = cur + 1 then ReqKind.next else ReqKind.future }
      else none
    else none)

/-- The specification's tier scan, shared verbatim by the hideout (level)
and project (phase) resolvers: consider exactly the tiers strictly above
the current tier, in declared order, and scan each. -/
def tierEntries (tiers : List (Int × List Requirement)) (cur : Int)
    (owned : Int → Int) (tid : String) : List TierEntry :=
  (tiers.filter (fun t => decide (cur < t.1))).flatMap (tierReqScan cur owned tid)

/-- The specification's hideout scan: stations in declaration order, each
contributing its tier entries (levels in declared order). -/
def specHideoutEntries (hideout_data : List Station) (prog : HideoutProgress)
    (tid : String) : List (Station × TierEntry) :=
  hideout_data.flatMap (fun st =>
    (tierEntries (st.levels.map (fun li => (li.level, li.requirementItemIds)))
        (currentLevel prog st.id)
        (fun lvl => hideoutOwned prog st.id lvl tid) tid).map (fun e => (st, e)))

/-- Display label of a hideout tier entry. -/
def hideoutLabel (st : Station) (e : TierEntry) : String :=
  mkLabel st.name e.tier e.remaining

theorem tier_loop_eq (label : Int → Int → String) (cur : Int)
    (ownedF : Int → Int) (tid : String) (tiers : List (Int × List Requirement)) :
    tiers.flatMap (fun t =>
        if t.1 ≤ cur then []
        else
          t.2.filterMap (fun req =>
            if req.itemId = some tid then
              if 0 < req.quantity - ownedF t.1 then
                some (label t.1 (req.quantity - ownedF t.1),
                      if t.1 = cur + 1 then ReqKind.next else ReqKind.future)
              else none
            else none))
      = (tierEntries tiers cur ownedF tid).map
          (fun e => (label e.tier e.remaining, e.kind)) := by
  induction tiers with
  | nil => rfl
  | cons t tl ih =>
    rw [List.flatMap_cons]
    by_cases h : t.1 ≤ cur
    · rw [if_pos h, List.nil_append, ih]
      unfold tierEntries
      rw [List.filter_cons,
        if_neg (fun hc => absurd (of_decide_eq_true hc) (by omega))]
    · rw [if_neg h, ih]
      unfold tierEntries
      rw [List.filter_cons, if_pos (decide_eq_true (by omega)),
        List.flatMap_cons, List.map_append]
      congr 1
      unfold tierReqScan
      rw [List.map_filterMap]
      congr 1
      funext req
      by_cases h1 : req.itemId = some tid
      · by_cases h2 : 0 < req.quantity - ownedF t.1 <;> simp [h1, h2]
      · simp [h1]

theorem tierEntries_mem {tiers : List (Int × List Requirement)} {cur : Int}
    {ownedF : Int → Int} {tid : String} {e : TierEntry}
    (he : e ∈ tierEntries tiers cur ownedF tid) :
    cur < e.tier ∧ 0 < e.remaining ∧ (e.kind = ReqKind.next ↔ e.tier = cur + 1) := by
  unfold tierEntries at he
  rw [List.mem_flatMap] at he
  obtain ⟨t, ht, he⟩ := he
  rw [List.mem_filter] at ht
  have hcur : cur < t.1 := by simpa using ht.2
  unfold tierReqScan at he
  rw [List.mem_filterMap] at he
  obtain ⟨req, _, hreq⟩ := he
  by_cases h1 : req.itemId = some tid
  · by_cases h2 : 0 < req.quantity - ownedF t.1
    · rw [if_pos h1, if_pos h2] at hreq
      have he2 := Option.some.inj hreq
      subst he2
      refine ⟨hcur, h2, ?_⟩
      by_cases h3 : t.1 = cur + 1 <;> simp [h3]
    · simp [h1, h2] at hreq
  · simp [h1] at hreq

theorem hideout_station_eq (prog : HideoutProgress) (tid : String) (st : Station) :
    (st.levels.flatMap (fun lvl_info =>
        if lvl_info.level ≤ currentLevel prog st.id then []
        else
          lvl_info.requirementItemIds.filterMap (fun req =>
            if req.itemId = some tid then
              if 0 < req.quantity - hideoutOwned prog st.id lvl_info.level tid then
                some (mkLabel st.name lvl_info.level
                        (req.quantity - hideoutOwned prog st.id lvl_info.level tid),
                      if lvl_info.level = currentLevel prog st.id + 1 then
                        ReqKind.next else ReqKind.future)
              else none
            else none)))
      = (tierEntries (st.levels.map (fun li => (li.level, li.requirementItemIds)))
            (currentLevel prog st.id)
            (fun lvl => hideoutOwned prog st.id lvl tid) tid).map
          (fun e => (mkLabel st.name e.tier e.remaining, e.kind)) := by
  have h := tier_loop_eq (fun lvl rem => mkLabel st.name lvl rem)
    (currentLevel prog st.id) (fun lvl => hideoutOwned prog st.id lvl tid) tid
    (st.levels.map (fun li => (li.level, li.requirementItemIds)))
  rw [List.flatMap_map] at h
  exact h

/-- C1: for a target resolvable by name and carrying an id,
`find_hideout_requirements` equals the specification scan — station
declaration order, then declared level order, considering exactly the
levels strictly above the user's current level for that station (default
0), `remaining = required − owned` (nested inventory, default 0), emitting
only positive remainders — and every emitted entry is strictly above the
current level, has positive remainder, and is classified `next` exactly
when its level is `current + 1`. -/
theorem find_hideout_requirements_spec (items : List (String × Item))
    (hideout_data : List Station) (prog : HideoutProgress) (item_name : String)
    (target : Item) (tid : String)
    (hT : get_item_by_name items item_name = some target)
    (hid : target.id = some tid) :
    find_hideout_requirements items hideout_data prog item_name
      = (specHideoutEntries hideout_data prog tid).map
          (fun se => (hideoutLabel se.1 se.2, se.2.kind)) ∧
    ∀ se ∈ specHideoutEntries hideout_data prog tid,
      currentLevel prog se.1.id < se.2.tier ∧
      0 < se.2.remaining ∧
      (se.2.kind = ReqKind.next ↔ se.2.tier = currentLevel prog se.1.id + 1) := by
  constructor
  · simp only [find_hideout_requirements, hT, hid]
    unfold specHideoutEntries
    rw [List.map_flatMap]
    congr 1
    funext st
    rw [List.map_map]
    exact hideout_station_eq prog tid st
  · intro se hse
    unfold specHideoutEntries at hse
    rw [List.mem_flatMap] at hse
    obtain ⟨st, _, hse⟩ := hse
    rw [List.mem_map] at hse
    obtain ⟨e, he, rfl⟩ := hse
    exact tierEntries_mem he

/-- Concrete items map for the C1 witness (the spec's Workbench example). -/
def wItems : List (String × Item) := [("Screws", { id := some "sc" })]

/-- Concrete Workbench station: requirements for the target at levels 1
(5 needed), 3 (10 needed) and 5 (7 needed). -/
def wStation : Station :=
  { id := some "wb", name := "Workbench",
    levels :=
      [ { level := 1, requirementItemIds := [{ itemId := some "sc", quantity := 5 }] },
        { level := 3, requirementItemIds := [{ itemId := some "sc", quantity := 10 }] },
        { level := 5, requirementItemIds := [{ itemId := some "sc", quantity := 7 }] } ] }

/-- Concrete progress for the C1 witness: Workbench at level 2, 4 of the
target owned toward level 3. -/
def wProg : HideoutProgress :=
  { station_levels := [("wb", 2)],
    hideout_inventory := [("wb", [("3", [("sc", 4)])])] }

/-- C1 witness: the spec's Workbench example — current level 2 yields a
`next` entry of 6 at level 3, a `future` entry of 7 at level 5, and no
entry for level 1 — applied through the theorem. -/
theorem find_hideout_requirements_spec_witness :
    get_item_by_name wItems "Screws" = some { id := some "sc" } ∧
    (Item.mk (some "sc")).id = some "sc" ∧
    find_hideout_requirements wItems [wStation] wProg "Screws"
      = [("Workbench (Lvl 3): x6", ReqKind.next),
         ("Workbench (Lvl 5): x7", ReqKind.future)] ∧
    (find_hideout_requirements wItems [wStation] wProg "Screws"
        = (specHideoutEntries [wStation] wProg "sc").map
            (fun se => (hideoutLabel se.1 se.2, se.2.kind)) ∧
      ∀ se ∈ specHideoutEntries [wStation] wProg "sc",
        currentLevel wProg se.1.id < se.2.tier ∧
        0 < se.2.remaining ∧
        (se.2.kind = ReqKind.next ↔ se.2.tier = currentLevel wProg se.1.id + 1)) :=
  ⟨rfl, rfl, by decide,
    find_hideout_requirements_spec wItems [wStation] wProg "Screws"
      { id := some "sc" } "sc" rfl rfl⟩

/-! ### Project resolver (`DataManager.find_project_requirements`) -/

/-- One entry of a project's `phases` list (`phase.get('phase', 0)`,
`phase.get('requirementItemIds', [])`). -/
structure PhaseInfo where
  phase : Int := 0
  requirementItemIds : List Requirement := []
deriving DecidableEq, Repr

/-- A project record after the constructor's `en` name normalization.
`proj.get('name')` yields `None` when the key is missing — and
`'Project' in None` then raises a `TypeError`. -/
structure Project where
  id : Option String := none
  name : Option String := none
  phases : List PhaseInfo := []
deriving DecidableEq, Repr

/-- Per-project progress
(`p_prog.get(pid, {'completed_phase': 0, 'inventory': {}})`). -/
structure ProjectProg where
  completed_phase : Int := 0
  inventory : List (String × List (String × Int)) := []
deriving DecidableEq, Repr

/-- `inv.get(str(pnum), {}).get(item_id, 0)`. -/
def projectOwned (inv : List (String × List (String × Int))) (pnum : Int)
    (item_id : String) : Int :=
  (lookupKV ((lookupKV inv (toString pnum)).getD []) item_id).getD 0

/-- `if 'Project' in pname: pname = pname.replace('Project', '').strip()`. -/
def stripProjectToken (nm : String) : String :=
  if pyContains nm "Project" then pyStrip (pyReplace nm "Project" "") else nm

/-- The progress entry consulted for a project
(`p_prog.get(pid, {'completed_phase': 0, 'inventory': {}})`; a project
with no id reads the key `None`, which a JSON progress object cannot
contain, so the default results). -/
def projProgressOf (p_prog : List (String × ProjectProg)) (proj : Project) :
    ProjectProg :=
  match proj.id with
  | some pid => (lookupKV p_prog pid).getD { completed_phase := 0, inventory := [] }
  | none => { completed_phase := 0, inventory := [] }

/-- The per-project loop of `find_project_requirements`, translated from
the source: reading `proj.get('name')` of a record without a name raises
(`'Project' in None`), which aborts the whole call. -/
def project_loop (tid : String) (p_prog : List (String × ProjectProg)) :
    List Project → Except String (List (String × ReqKind))
  | [] => .ok []
  | proj :: rest =>
    match proj.name with
    | none => .error "TypeError: argument of type NoneType is not iterable"
    | some nm =>
      Except.map
        (fun tail =>
          (proj.phases.flatMap (fun ph =>
            if ph.phase ≤ (projProgressOf p_prog proj).completed_phase then []
            else
              ph.requirementItemIds.filterMap (fun req =>
                if req.itemId = some tid then
                  if 0 < req.quantity -
                      projectOwned (projProgressOf p_prog proj).inventory ph.phase tid
                  then
                    some (mkPhaseLabel (stripProjectToken nm) ph.phase
                            (req.quantity -
                              projectOwned (projProgressOf p_prog proj).inventory
                                ph.phase tid),
                          if ph.phase = (projProgressOf p_prog proj).completed_phase + 1
                          then ReqKind.next else ReqKind.future)
                  else none
                else none))) ++ tail)
        (project_loop tid p_prog rest)

/-- `DataManager.find_project_requirements`, translated from the source:
resolve the target by name, bail out to `[]` without an item or id, then
run the per-project loop. -/
def find_project_requirements (items : List (String × Item))
    (project_data : List Project) (p_prog : List (String × ProjectProg))
    (item_name : String) : Except String (List (String × ReqKind)) :=
  match get_item_by_name items item_name with
  | none => .ok []
  | some target =>
    match target.id with
    | none => .ok []
    | some tid => project_loop tid p_prog project_data

/-- The specification's project scan: projects in declaration order, each
contributing its tier entries at phase granularity — the same `tierEntries`
scan the hideout resolver uses. -/
def specProjectEntries (project_data : List Project)
    (p_prog : List (String × ProjectProg)) (tid : String) :
    List (Project × TierEntry) :=
  project_data.flatMap (fun proj =>
    (tierEntries (proj.phases.map (fun ph => (ph.phase, ph.requirementItemIds)))
        (projProgressOf p_prog proj).completed_phase
        (fun pnum => projectOwned (projProgressOf p_prog proj).inventory pnum tid)
        tid).map (fun e => (proj, e)))

/-- Display label of a project tier entry: the project name with the
literal "Project" token stripped. -/
def projectLabel (proj : Project) (e : TierEntry) : String :=
  mkPhaseLabel (stripProjectToken (proj.name.getD "")) e.tier e.remaining

theorem project_loop_ok (tid : String) (p_prog : List (String × ProjectProg))
    (project_data : List Project)
    (hNames : ∀ proj ∈ project_data, proj.name ≠ none) :
    project_loop tid p_prog project_data
      = .ok ((specProjectEntries project_data p_prog tid).map
          (fun pe => (projectLabel pe.1 pe.2, pe.2.kind))) := by
  induction project_data with
  | nil => rfl
  | cons proj rest ih =>
    have hn := hNames proj (List.mem_cons_self proj rest)
    cases hname : proj.name with
    | none => exact absurd hname hn
    | some nm =>
      simp only [project_loop, hname]
      rw [ih (fun p hp => hNames p (List.mem_cons_of_mem _ hp))]
      simp only [Except.map]
      unfold specProjectEntries
      rw [List.flatMap_cons, List.map_append]
      congr 2
      rw [List.map_map]
      simp only [Function.comp_def, projectLabel, hname, Option.getD_some]
      have h := tier_loop_eq
        (fun pnum rem => mkPhaseLabel (stripProjectToken nm) pnum rem)
        (projProgressOf p_prog proj).completed_phase
        (fun pnum => projectOwned (projProgressOf p_prog proj).inventory pnum tid)
        tid (proj.phases.map (fun ph => (ph.phase, ph.requirementItemIds)))
      rw [List.flatMap_map] at h
      exact h

/-- C8 counterexample: with a resolvable target carrying an id and a
loaded project record without a name, `find_project_requirements` raises a
`TypeError` (`'Project' in None` at the name-stripping step) instead of
returning a result list, so "never raises, for any loaded project data" is
false as stated. -/
theorem find_project_requirements_raises :
    find_project_requirements [("Gear", { id := some "g1" })]
        [{ id := none, name := none, phases := [] }] [] "Gear"
      = .error "TypeError: argument of type NoneType is not iterable" := rfl

/-- C8 (amended): provided every loaded project record carries a name,
`find_project_requirements` never raises — an unresolved target or an item
without an id yields `.ok []` — and for a resolved target the result is the
specification's phase-granularity scan (the same `tierEntries` scan as the
hideout resolver, C1) with the literal "Project" token stripped from
display names; every entry lies strictly above the completed phase, has a
positive remainder, and is `next` exactly at `completed + 1`. -/
theorem find_project_requirements_safe (items : List (String × Item))
    (project_data : List Project) (p_prog : List (String × ProjectProg))
    (item_name : String)
    (hNames : ∀ proj ∈ project_data, proj.name ≠ none) :
    (∃ l, find_project_requirements items project_data p_prog item_name = .ok l) ∧
    (get_item_by_name items item_name = none →
      find_project_requirements items project_data p_prog item_name = .ok []) ∧
    (∀ target, get_item_by_name items item_name = some target → target.id = none →
      find_project_requirements items project_data p_prog item_name = .ok []) ∧
    (∀ target tid, get_item_by_name items item_name = some target →
      target.id = some tid →
      find_project_requirements items project_data p_prog item_name
        = .ok ((specProjectEntries project_data p_prog tid).map
            (fun pe => (projectLabel pe.1 pe.2, pe.2.kind)))) ∧
    (∀ tid, ∀ pe ∈ specProjectEntries project_data p_prog tid,
      (projProgressOf p_prog pe.1).completed_phase < pe.2.tier ∧
      0 < pe.2.remaining ∧
      (pe.2.kind = ReqKind.next ↔
        pe.2.tier = (projProgressOf p_prog pe.1).completed_phase + 1)) := by
  refine ⟨?_, ?_, ?_, ?_, ?_⟩
  · cases hT : get_item_by_name items item_name with
    | none => exact ⟨[], by simp [find_project_requirements, hT]⟩
    | some target =>
      cases hid : target.id with
      | none => exact ⟨[], by simp [find_project_requirements, hT, hid]⟩
      | some tid =>
        refine ⟨(specProjectEntries project_data p_prog tid).map
          (fun pe => (projectLabel pe.1 pe.2, pe.2.kind)), ?_⟩
        simp only [find_project_requirements, hT, hid]
        exact project_loop_ok tid p_prog project_data hNames
  · intro hT
    simp [find_project_requirements, hT]
  · intro target hT hid
    simp [find_project_requirements, hT, hid]
  · intro target tid hT hid
    simp only [find_project_requirements, hT, hid]
    exact project_loop_ok tid p_prog project_data hNames
  · intro tid pe hpe
    unfold specProjectEntries at hpe
    rw [List.mem_flatMap] at hpe
    obtain ⟨proj, _, hpe⟩ := hpe
    rw [List.mem_map] at hpe
    obtain ⟨e, he, rfl⟩ := hpe
    exact tierEntries_mem he

/-- Concrete inputs for the C8 witness: one resolvable target. -/
def pItems : List (String × Item) := [("Gear", { id := some "g1" })]

/-- Concrete project list for the C8 witness: a project named
"Project Bravo" with an outstanding phase-1 requirement. -/
def pProjects : List Project :=
  [{ id := some "p1", name := some "Project Bravo",
     phases := [{ phase := 1,
                  requirementItemIds := [{ itemId := some "g1", quantity := 3 }] }] }]

/-- C8 witness: the project resolver on concrete data with every project
named, applied through the theorem; the display name has the "Project"
token stripped ("Bravo (Ph1): x3"). -/
theorem find_project_requirements_safe_witness :
    (∀ proj ∈ pProjects, proj.name ≠ none) ∧
    find_project_requirements pItems pProjects [] "Gear"
      = .ok [("Bravo (Ph1): x3", ReqKind.next)] ∧
    ((∃ l, find_project_requirements pItems pProjects [] "Gear" = .ok l) ∧
      (get_item_by_name pItems "Gear" = none →
        find_project_requirements pItems pProjects [] "Gear" = .ok []) ∧
      (∀ target, get_item_by_name pItems "Gear" = some target → target.id = none →
        find_project_requirements pItems pProjects [] "Gear" = .ok []) ∧
      (∀ target tid, get_item_by_name pItems "Gear" = some target →
        target.id = some tid →
        find_project_requirements pItems pProjects [] "Gear"
          = .ok ((specProjectEntries pProjects [] tid).map
              (fun pe => (projectLabel pe.1 pe.2, pe.2.kind)))) ∧
      (∀ tid, ∀ pe ∈ specProjectEntries pProjects [] tid,
        (projProgressOf [] pe.1).completed_phase < pe.2.tier ∧
        0 < pe.2.remaining ∧
        (pe.2.kind = ReqKind.next ↔
          pe.2.tier = (projProgressOf [] pe.1).completed_phase + 1))) :=
  ⟨by decide, rfl,
    find_project_requirements_safe pItems pProjects [] "Gear" (by decide)⟩

/-! ### Item loading (`ItemDatabase._load_items_from_dir`)

A directory listing is a list of `(filename, parse result)` pairs in
`os.listdir` order; `none` stands for a file whose `json.load` (or
processing) raised, which the loader skips with a diagnostic.  Name values
are the strings of the JSON record (the loader's `str(...)` conversion is
the identity on them). -/

/-- The `name` field of a raw item record: a plain string, a language
table, or anything else (missing, `null`, a number, ...), which makes the
record unusable. -/
inductive JName where
  | jstr (s : String)
  | jtable (kvs : List (String × String))
  | jnone
deriving DecidableEq, Repr

/-- A raw item record as parsed from one JSON file (only the fields the
loader touches). -/
structure RawItem where
  id : Option String := none
  name : JName := .jnone
deriving DecidableEq, Repr

/-- An item record after the loader's in-place mutation: `name` is set to
the stripped `en` entry when the table has one (а table without `en` is
left in place), and `names` holds the full table. -/
structure LoadedItem where
  id : Option String := none
  name : JName := .jnone
  names : List (String × String) := []
deriving DecidableEq, Repr

/-- The loader's mutation of one usable record. -/
def loadRecordItem (r : RawItem) : LoadedItem :=
  match r.name with
  | .jtable t =>
    { id := r.id,
      name :=
        match lookupKV t "en" with
        | some en => .jstr (pyStrip en)
        | none => .jtable t,
      names := t }
  | .jstr s => { id := r.id, name := .jstr (pyStrip s), names := [("en", pyStrip s)] }
  | .jnone => { id := r.id, name := .jnone, names := [] }

/-- Indexing of one record into `choices`: every non-empty per-language
value of a table (stripped) maps to the record; a plain string name maps
its stripped form; a record with no usable name is skipped. -/
def processRecord (choices : List (String × LoadedItem)) (r : RawItem) :
    List (String × LoadedItem) :=
  match r.name with
  | .jtable t =>
    t.foldl (fun ch lv =>
      if lv.2 ≠ "" then upsert ch (pyStrip lv.2) (loadRecordItem r) else ch) choices
  | .jstr s => upsert choices (pyStrip s) (loadRecordItem r)
  | .jnone => choices

/-- Python `s.endswith(suf)` (char-list based; `String.endsWith` relies on
opaque byte-size primitives and is not used). -/
def strEndsWith (s suf : String) : Bool :=
  startsWithList suf.toList.reverse s.toList.reverse

/-- One step of the directory fold: process a `.json` file that parsed,
skip everything else (non-`.json` names, files whose `json.load` raised). -/
def processFile (ch : List (String × LoadedItem)) (f : String × Option RawItem) :
    List (String × LoadedItem) :=
  if strEndsWith f.1 ".json" then
    match f.2 with
    | some r => processRecord ch r
    | none => ch
  else ch

/-- `ItemDatabase._load_items_from_dir`: fold the `.json` files of the
listing in order, skipping files that fail to parse. -/
def load_items_from_dir (files : List (String × Option RawItem)) :
    List (String × LoadedItem) :=
  files.foldl processFile []

/-- Does processing this record write the index key `k`?  (A table writes
the stripped form of each non-empty value; a plain string name writes its
stripped form; an unusable record writes nothing.) -/
def recordWritesKey (r : RawItem) (k : String) : Bool :=
  match r.name with
  | .jtable t => t.any (fun lv => !(lv.2 == "") && (pyStrip lv.2 == k))
  | .jstr s => pyStrip s == k
  | .jnone => false

/-- Does processing this directory entry write the index key `k`? -/
def fileWritesKey (f : String × Option RawItem) (k : String) : Bool :=
  strEndsWith f.1 ".json" &&
    (match f.2 with
     | some r => recordWritesKey r k
     | none => false)

theorem processFile_json_some (ch : List (String × LoadedItem)) (fname : String)
    (r : RawItem) (hf : strEndsWith fname ".json" = true) :
    processFile ch (fname, some r) = processRecord ch r := by
  show (if strEndsWith fname ".json" = true then processRecord ch r else ch)
    = processRecord ch r
  rw [if_pos hf]

theorem lookupKV_foldl_upsert_preserved {t : List (String × String)}
    {item : LoadedItem} {ch : List (String × LoadedItem)} {k : String}
    (h : lookupKV ch k = some item) :
    lookupKV (t.foldl (fun ch lv =>
      if lv.2 ≠ "" then upsert ch (pyStrip lv.2) item else ch) ch) k = some item := by
  induction t generalizing ch with
  | nil => exact h
  | cons lv tl ih =>
    rw [List.foldl_cons]
    apply ih
    by_cases hne : lv.2 ≠ ""
    · rw [if_pos hne, lookupKV_upsert]
      by_cases hk : pyStrip lv.2 = k
      · rw [if_pos hk]
      · rw [if_neg hk]
        exact h
    · rwa [if_neg hne]

theorem lookupKV_foldl_upsert_hits {t : List (String × String)}
    {item : LoadedItem} {ch : List (String × LoadedItem)} {k : String}
    (h : ∃ lv ∈ t, lv.2 ≠ "" ∧ pyStrip lv.2 = k) :
    lookupKV (t.foldl (fun ch lv =>
      if lv.2 ≠ "" then upsert ch (pyStrip lv.2) item else ch) ch) k = some item := by
  induction t generalizing ch with
  | nil => obtain ⟨lv, hmem, _⟩ := h; exact absurd hmem (List.not_mem_nil lv)
  | cons lv0 tl ih =>
    obtain ⟨lv, hmem, hne, hk⟩ := h
    rw [List.foldl_cons]
    rcases List.mem_cons.mp hmem with rfl | htl
    · apply lookupKV_foldl_upsert_preserved
      rw [if_pos hne, lookupKV_upsert, if_pos hk]
    · exact ih ⟨lv, htl, hne, hk⟩

theorem lookupKV_foldl_upsert_skips {t : List (String × String)}
    {item : LoadedItem} {ch : List (String × LoadedItem)} {k : String}
    (h : ∀ lv ∈ t, lv.2 ≠ "" → pyStrip lv.2 ≠ k) :
    lookupKV (t.foldl (fun ch lv =>
      if lv.2 ≠ "" then upsert ch (pyStrip lv.2) item else ch) ch) k
      = lookupKV ch k := by
  induction t generalizing ch with
  | nil => rfl
  | cons lv tl ih =>
    rw [List.foldl_cons, ih (fun p hp hne => h p (List.mem_cons_of_mem lv hp) hne)]
    by_cases hne : lv.2 ≠ ""
    · rw [if_pos hne, lookupKV_upsert, if_neg (h lv (List.mem_cons_self lv tl) hne)]
    · rw [if_neg hne]

theorem lookupKV_processRecord_of_not_writes {ch : List (String × LoadedItem)}
    {r : RawItem} {k : String} (h : recordWritesKey r k = false) :
    lookupKV (processRecord ch r) k = lookupKV ch k := by
  cases hname : r.name with
  | jnone =>
    unfold processRecord
    rw [hname]
  | jstr s =>
    have hs : ¬ pyStrip s = k := by
      have h2 := h
      simp only [recordWritesKey, hname] at h2
      simpa using h2
    unfold processRecord
    rw [hname, lookupKV_upsert, if_neg hs]
  | jtable t =>
    have h2 : t.any (fun lv => !(lv.2 == "") && (pyStrip lv.2 == k)) = false := by
      have h3 := h
      simp only [recordWritesKey, hname] at h3
      exact h3
    have ht : ∀ lv ∈ t, lv.2 ≠ "" → pyStrip lv.2 ≠ k := by
      intro lv hlv hne heq
      have hT : t.any (fun lv => !(lv.2 == "") && (pyStrip lv.2 == k)) = true :=
        List.any_eq_true.mpr ⟨lv, hlv, by simp [hne, heq]⟩
      rw [h2] at hT
      exact Bool.noConfusion hT
    unfold processRecord
    rw [hname]
    exact lookupKV_foldl_upsert_skips ht

theorem lookupKV_processFile_of_not_writes {ch : List (String × LoadedItem)}
    {f : String × Option RawItem} {k : String}
    (h : fileWritesKey f k = false) :
    lookupKV (processFile ch f) k = lookupKV ch k := by
  obtain ⟨fn, fc⟩ := f
  unfold processFile
  by_cases he : strEndsWith fn ".json" = true
  · rw [if_pos he]
    cases fc with
    | none => rfl
    | some r =>
      have hr : recordWritesKey r k = false := by
        simp only [fileWritesKey, he, Bool.true_and] at h
        exact h
      exact lookupKV_processRecord_of_not_writes hr
  · rw [if_neg he]

theorem lookupKV_foldl_processFile_of_not_writes
    {post : List (String × Option RawItem)} {ch : List (String × LoadedItem)}
    {k : String} (h : ∀ f ∈ post, fileWritesKey f k = false) :
    lookupKV (post.foldl processFile ch) k = lookupKV ch k := by
  induction post generalizing ch with
  | nil => rfl
  | cons f tl ih =>
    rw [List.foldl_cons, ih (fun g hg => h g (List.mem_cons_of_mem f hg)),
      lookupKV_processFile_of_not_writes (h f (List.mem_cons_self f tl))]

/-- Concrete directory listing for the C4 counterexample: record `a.json`
declares `en = " Screws "` (padded); record `b.json` declares
`de = "Screws"`, colliding with the stripped form of the first. -/
def caFiles : List (String × Option RawItem) :=
  [("a.json", some { id := some "i1", name := .jtable [("en", " Screws ")] }),
   ("b.json", some { id := some "i2", name := .jtable [("en", "Bolt"), ("de", "Screws")] })]

/-- C4 counterexample: the loader strips name values, so the canonical
name of record `a.json` is "Screws", not its `en` value " Screws "; lookup
by the declared localized name " Screws " fails; and the index key
"Screws" maps to the later record `b.json` (last write wins), not to
`a.json` — three ways the claim fails as stated at this concrete input. -/
theorem load_items_counterexample :
    (loadRecordItem { id := some "i1", name := .jtable [("en", " Screws ")] }).name
        = .jstr "Screws" ∧
    JName.jstr "Screws" ≠ JName.jstr " Screws " ∧
    lookupKV (load_items_from_dir caFiles) " Screws " = none ∧
    lookupKV (load_items_from_dir caFiles) "Screws"
      = some (loadRecordItem
          { id := some "i2", name := .jtable [("en", "Bolt"), ("de", "Screws")] }) ∧
    loadRecordItem { id := some "i2", name := .jtable [("en", "Bolt"), ("de", "Screws")] }
      ≠ loadRecordItem { id := some "i1", name := .jtable [("en", " Screws ")] } := by
  decide

/-- C4 (amended): for a record — at any position of the directory listing
— whose name is a language table with an `en` entry, the loaded item's
canonical name is the whitespace-stripped `en` value, the full table is
retained, and an index entry is created for the stripped form of every
non-empty per-language value, all mapping to that item; lookup by such a
stripped name returns the item provided no later-processed `.json` record
writes the same stripped key (last write wins). -/
theorem load_items_table_en (pre post : List (String × Option RawItem))
    (fname : String) (r : RawItem) (t : List (String × String)) (en : String)
    (hf : strEndsWith fname ".json" = true)
    (hname : r.name = .jtable t)
    (hen : lookupKV t "en" = some en) :
    (loadRecordItem r).name = .jstr (pyStrip en) ∧
    (loadRecordItem r).names = t ∧
    ∀ lv ∈ t, lv.2 ≠ "" →
      (∀ f ∈ post, fileWritesKey f (pyStrip lv.2) = false) →
      lookupKV (load_items_from_dir (pre ++ (fname, some r) :: post)) (pyStrip lv.2)
        = some (loadRecordItem r) := by
  refine ⟨?_, ?_, ?_⟩
  · unfold loadRecordItem
    rw [hname]
    simp [hen]
  · unfold loadRecordItem
    rw [hname]
  · intro lv hlv hne hpost
    unfold load_items_from_dir
    rw [List.foldl_append, List.foldl_cons,
      lookupKV_foldl_processFile_of_not_writes hpost,
      processFile_json_some _ _ _ hf]
    unfold processRecord
    rw [hname]
    exact lookupKV_foldl_upsert_hits ⟨lv, hlv, hne, rfl⟩

/-- Files processed before the C4 witness record: an unrelated
plain-string item. -/
def wPre : List (String × Option RawItem) :=
  [("w.json", some { id := some "i0", name := .jstr "Water" })]

/-- Files processed after the C4 witness record: an unrelated `.json`
record, and a non-`.json` file (skipped by the loader) that would collide
if it were processed. -/
def wPost : List (String × Option RawItem) :=
  [("y.json", some { id := some "i10", name := .jtable [("en", "Bread")] }),
   ("notes.txt", some { id := some "i11", name := .jstr "Milk" })]

/-- Concrete record for the C4 witness: a two-language name table. -/
def wRecord : RawItem := { id := some "i9", name := .jtable [("en", "Milk"), ("fr", "Lait")] }

/-- C4 witness: a record with name table `{en: "Milk", fr: "Lait"}` loaded
in the middle of a multi-item directory, applied through the amended
theorem; the later files write neither of its stripped names. -/
theorem load_items_table_en_witness :
    (strEndsWith "x.json" ".json" = true ∧
      wRecord.name = .jtable [("en", "Milk"), ("fr", "Lait")] ∧
      lookupKV [("en", "Milk"), ("fr", "Lait")] "en" = some "Milk") ∧
    (∀ f ∈ wPost, fileWritesKey f (pyStrip "Milk") = false) ∧
    lookupKV (load_items_from_dir (wPre ++ ("x.json", some wRecord) :: wPost)) "Milk"
      = some (loadRecordItem wRecord) ∧
    ((loadRecordItem wRecord).name = .jstr (pyStrip "Milk") ∧
      (loadRecordItem wRecord).names = [("en", "Milk"), ("fr", "Lait")] ∧
      ∀ lv ∈ [("en", "Milk"), ("fr", "Lait")], lv.2 ≠ "" →
        (∀ f ∈ wPost, fileWritesKey f (pyStrip lv.2) = false) →
        lookupKV (load_items_from_dir (wPre ++ ("x.json", some wRecord) :: wPost))
            (pyStrip lv.2)
          = some (loadRecordItem wRecord)) :=
  ⟨⟨by decide, by decide, by decide⟩, by decide, by decide,
    load_items_table_en wPre wPost "x.json" wRecord [("en", "Milk"), ("fr", "Lait")]
      "Milk" (by decide) (by decide) (by decide)⟩

/-! ### Quest views (`DataManager.get_filtered_quests`)

Python's stable `sorted(xs, key=f)` is modeled by Mathlib's stable
`List.insertionSort` with the relation `f a ≤ f b`; tuple keys compare
lexicographically with `False < True` on booleans, which `keyLe3` encodes. -/

/-- `not a < b` on booleans as Python compares them (False < True). -/
def boolLt (a b : Bool) : Bool := !a && b

/-- `a ≤ b` on booleans as Python compares them. -/
def boolLe (a b : Bool) : Bool := !a || b

/-- Lexicographic `≤` on the sort key `(not tracked, order index, completed)`. -/
def keyLe3 (x y : Bool × Nat × Bool) : Bool :=
  boolLt x.1 y.1 ||
    (x.1 == y.1 &&
      (decide (x.2.1 < y.2.1) || (x.2.1 == y.2.1 && boolLe x.2.2 y.2.2)))

theorem keyLe3_refl (x : Bool × Nat × Bool) : keyLe3 x x = true := by
  obtain ⟨a1, a2, a3⟩ := x
  cases a3 <;> simp [keyLe3, boolLt, boolLe]

theorem keyLe3_total (x y : Bool × Nat × Bool) :
    keyLe3 x y = true ∨ keyLe3 y x = true := by
  obtain ⟨a1, a2, a3⟩ := x
  obtain ⟨b1, b2, b3⟩ := y
  cases a1 <;> cases b1 <;> cases a3 <;> cases b3 <;>
    simp [keyLe3, boolLt, boolLe] <;> omega

theorem keyLe3_trans {x y z : Bool × Nat × Bool}
    (h1 : keyLe3 x y = true) (h2 : keyLe3 y z = true) : keyLe3 x z = true := by
  obtain ⟨a1, a2, a3⟩ := x
  obtain ⟨b1, b2, b3⟩ := y
  obtain ⟨c1, c2, c3⟩ := z
  cases a1 <;> cases b1 <;> cases c1 <;> cases a3 <;> cases b3 <;> cases c3 <;>
    simp [keyLe3, boolLt, boolLe] at h1 h2 ⊢ <;> omega

/-- One objective of a raw quest record: a language table, a plain string,
or anything else (dropped by the flattening). -/
inductive ObjEntry where
  | otable (kvs : List (String × String))
  | ostr (s : String)
  | oother
deriving DecidableEq, Repr

/-- A raw quest record (only the fields `get_filtered_quests` touches). -/
structure Quest where
  id : Option String := none
  name : JName := .jnone
  objectives : List ObjEntry := []
deriving DecidableEq, Repr

/-- Per-quest progress entry
(`self.user_progress['quests'].get(q_id, {})` with per-field defaults). -/
structure QuestFlags where
  quest_completed : Bool := false
  is_tracked : Bool := false
  objectives_completed : List Nat := []
deriving DecidableEq, Repr

/-- The progress slices read by the quest view: the `quests` subtree (the
code lazily creates it empty when absent, which reads identically) and the
`quest_order` list. -/
structure QuestProgressDoc where
  quests : List (String × QuestFlags) := []
  quest_order : List String := []
deriving DecidableEq, Repr

/-- A merged quest info row (`info = quest.copy()` plus the progress
flags; the flattened objectives replace the raw ones). -/
structure QuestInfo where
  id : String
  name : JName
  objectives : List String
  is_completed : Bool
  is_tracked : Bool
  objectives_completed : List Nat
deriving DecidableEq, Repr

/-- Objective flattening: a language table contributes its `en` entry (a
table without `en` is dropped), a plain string contributes itself,
anything else is dropped. -/
def flattenObjectives (objs : List ObjEntry) : List String :=
  objs.filterMap (fun o =>
    match o with
    | .otable kvs => lookupKV kvs "en"
    | .ostr s => some s
    | .oother => none)

/-- The merge loop of `get_filtered_quests`: quests without an id — the
Python `if not q_id: continue` also skips an empty-string id — are
dropped; names unwrap their `en` entry; flags default to
not-completed/not-tracked/none-done. -/
def build_quest_infos (quest_data : List Quest) (doc : QuestProgressDoc) :
    List QuestInfo :=
  quest_data.filterMap (fun quest =>
    match quest.id with
    | none => none
    | some qid =>
      if qid = "" then none
      else
        some { id := qid,
               name :=
                 match quest.name with
                 | .jtable kvs =>
                   match lookupKV kvs "en" with
                   | some en => .jstr en
                   | none => .jtable kvs
                 | other => other,
               objectives := flattenObjectives quest.objectives,
               is_completed := ((lookupKV doc.quests qid).getD {}).quest_completed,
               is_tracked := ((lookupKV doc.quests qid).getD {}).is_tracked,
               objectives_completed :=
                 ((lookupKV doc.quests qid).getD {}).objectives_completed })

/-- The full-list sort key
`(not q['is_tracked'], order_index, q['is_completed'])`, with
`order_index = custom_order.index(q_id) if q_id in custom_order else
len(custom_order)`. -/
def questSortKey (order : List String) (q : QuestInfo) : Bool × Nat × Bool :=
  (!q.is_tracked, (indexInList order q.id).getD order.length, q.is_completed)

/-- The tracked-only sort key
`custom_order.index(q['id']) if q['id'] in custom_order else 999`. -/
def rank999 (order : List String) (qid : String) : Nat :=
  (indexInList order qid).getD 999

/-- `DataManager.get_filtered_quests`, translated from the source. -/
def get_filtered_quests (quest_data : List Quest) (doc : QuestProgressDoc)
    (tracked_only : Bool) : List QuestInfo :=
  let all_quest_info := build_quest_infos quest_data doc
  let custom_order := doc.quest_order
  if tracked_only then
    List.insertionSort
      (fun a b => rank999 custom_order a.id ≤ rank999 custom_order b.id)
      (all_quest_info.filter (fun q => q.is_tracked && !q.is_completed))
  else
    List.insertionSort
      (fun a b =>
        keyLe3 (questSortKey custom_order a) (questSortKey custom_order b) = true)
      all_quest_info

/-- Stability of the stable sort, as filter-invariance: filtering by any
class of mutually-related elements returns them in their original order. -/
theorem filter_insertionSort {α : Type} (r : α → α → Prop) [DecidableRel r]
    (p : α → Bool) (hp : ∀ a b, p a = true → p b = true → r a b) (l : List α) :
    (List.insertionSort r l).filter p = l.filter p := by
  have hPair : (l.filter p).Pairwise r :=
    List.pairwise_of_forall_mem_list (fun a ha b hb =>
      hp a b (List.of_mem_filter ha) (List.of_mem_filter hb))
  have hsub : List.Sublist (l.filter p) (List.insertionSort r l) :=
    List.sublist_insertionSort hPair (List.filter_sublist l)
  have h1 : List.Sublist (l.filter p) ((List.insertionSort r l).filter p) := by
    simpa [List.filter_filter, Bool.and_self] using hsub.filter p
  have hlen : ((List.insertionSort r l).filter p).length = (l.filter p).length :=
    ((List.perm_insertionSort r l).filter p).length_eq
  exact (h1.eq_of_length hlen.symm).symm

/-- The specification's full-list ordering, written from the claim's three
keys in precedence: tracked before untracked; then ascending custom-order
position with absent quests after all listed ones (sentinel
`len(custom_order)`); then incomplete before completed. -/
def specLe3 (order : List String) (a b : QuestInfo) : Prop :=
  (a.is_tracked = true ∧ b.is_tracked = false) ∨
  (a.is_tracked = b.is_tracked ∧
    ((indexInList order a.id).getD order.length
        < (indexInList order b.id).getD order.length ∨
     ((indexInList order a.id).getD order.length
          = (indexInList order b.id).getD order.length ∧
       (a.is_completed = false ∨ b.is_completed = true))))

theorem specLe3_iff (order : List String) (a b : QuestInfo) :
    specLe3 order a b
      ↔ keyLe3 (questSortKey order a) (questSortKey order b) = true := by
  unfold specLe3 keyLe3 questSortKey boolLt boolLe
  cases ha : a.is_tracked <;> cases hb : b.is_tracked <;>
    cases hc : a.is_completed <;> cases hd : b.is_completed <;>
      simp

theorem build_quest_infos_length (doc : QuestProgressDoc) :
    ∀ quest_data : List Quest,
      (∀ q ∈ quest_data, ∃ i, q.id = some i ∧ i ≠ "") →
      (build_quest_infos quest_data doc).length = quest_data.length := by
  intro quest_data
  induction quest_data with
  | nil => intro _; rfl
  | cons q tl ih =>
    intro hIds
    obtain ⟨i, hqi, hne⟩ := hIds q (List.mem_cons_self q tl)
    have htl := ih (fun p hp => hIds p (List.mem_cons_of_mem q hp))
    unfold build_quest_infos
    rw [List.filterMap_cons]
    simp only [hqi, hne, if_neg, ne_eq, not_false_iff, if_false]
    unfold build_quest_infos at htl
    simp [htl]

/-- C5: with `trackedOnly = False` (and every quest carrying a non-empty
id, as the data model requires), `get_filtered_quests` returns all merged
quest rows — a permutation of one row per quest — sorted stably by exactly
the three keys in precedence: tracked before untracked, then ascending
custom-order position (absent quests after all listed ones, sentinel
`len(order)`), then incomplete before completed; stability is stated as
filter-invariance over each equal-key class. -/
theorem get_filtered_quests_full (quest_data : List Quest)
    (doc : QuestProgressDoc)
    (hIds : ∀ q ∈ quest_data, ∃ i, q.id = some i ∧ i ≠ "") :
    (build_quest_infos quest_data doc).length = quest_data.length ∧
    (get_filtered_quests quest_data doc false).Perm
      (build_quest_infos quest_data doc) ∧
    (get_filtered_quests quest_data doc false).Pairwise
      (specLe3 doc.quest_order) ∧
    (∀ k, (get_filtered_quests quest_data doc false).filter
        (fun q => decide (questSortKey doc.quest_order q = k))
      = (build_quest_infos quest_data doc).filter
        (fun q => decide (questSortKey doc.quest_order q = k))) := by
  have hunfold : get_filtered_quests quest_data doc false
      = List.insertionSort
          (fun a b => keyLe3 (questSortKey doc.quest_order a)
            (questSortKey doc.quest_order b) = true)
          (build_quest_infos quest_data doc) := by
    simp [get_filtered_quests]
  refine ⟨build_quest_infos_length doc quest_data hIds, ?_, ?_, ?_⟩
  · rw [hunfold]
    exact List.perm_insertionSort _ _
  · rw [hunfold]
    haveI : IsTotal QuestInfo (fun a b => keyLe3 (questSortKey doc.quest_order a)
        (questSortKey doc.quest_order b) = true) := ⟨fun a b => keyLe3_total _ _⟩
    haveI : IsTrans QuestInfo (fun a b => keyLe3 (questSortKey doc.quest_order a)
        (questSortKey doc.quest_order b) = true) :=
      ⟨fun _ _ _ h1 h2 => keyLe3_trans h1 h2⟩
    exact (List.sorted_insertionSort _ _).imp
      (fun hab => (specLe3_iff _ _ _).mpr hab)
  · intro k
    rw [hunfold]
    refine filter_insertionSort _ _ (fun a b ha hb => ?_) _
    have hka := of_decide_eq_true ha
    have hkb := of_decide_eq_true hb
    rw [hka, hkb]
    exact keyLe3_refl k

/-- Concrete quest list for the C5 witness. -/
def qData : List Quest :=
  [{ id := some "q1" }, { id := some "q2" }, { id := some "q3" }]

/-- Concrete progress for the C5 witness: `q1` tracked, `q2` completed and
first in the custom order, `q3` unlisted. -/
def qDoc : QuestProgressDoc :=
  { quests := [("q1", { is_tracked := true }), ("q2", { quest_completed := true })],
    quest_order := ["q2", "q1"] }

/-- C5 witness: the full sort on concrete data (tracked `q1` first, then
listed `q2`, then unlisted `q3`), applied through the theorem. -/
theorem get_filtered_quests_full_witness :
    (∀ q ∈ qData, ∃ i, q.id = some i ∧ i ≠ "") ∧
    (get_filtered_quests qData qDoc false).map QuestInfo.id = ["q1", "q2", "q3"] ∧
    ((build_quest_infos qData qDoc).length = qData.length ∧
      (get_filtered_quests qData qDoc false).Perm (build_quest_infos qData qDoc) ∧
      (get_filtered_quests qData qDoc false).Pairwise (specLe3 qDoc.quest_order) ∧
      (∀ k, (get_filtered_quests qData qDoc false).filter
          (fun q => decide (questSortKey qDoc.quest_order q = k))
        = (build_quest_infos qData qDoc).filter
          (fun q => decide (questSortKey qDoc.quest_order q = k)))) := by
  have hIds : ∀ q ∈ qData, ∃ i, q.id = some i ∧ i ≠ "" := by
    intro q hq
    simp only [qData, List.mem_cons, List.not_mem_nil, or_false] at hq
    rcases hq with rfl | rfl | rfl
    · exact ⟨"q1", rfl, by decide⟩
    · exact ⟨"q2", rfl, by decide⟩
    · exact ⟨"q3", rfl, by decide⟩
  exact ⟨hIds, by decide, get_filtered_quests_full qData qDoc hIds⟩

theorem indexInList_replicate_x_a (n : Nat) :
    indexInList (List.replicate n "x" ++ ["a"]) "a" = some n := by
  induction n with
  | zero => simp [indexInList]
  | succ m ih =>
    rw [List.replicate_succ, List.cons_append]
    unfold indexInList
    rw [if_neg (by decide), ih]
    rfl

theorem indexInList_replicate_x_z (n : Nat) :
    indexInList (List.replicate n "x" ++ ["a"]) "z" = none := by
  induction n with
  | zero =>
    show indexInList ["a"] "z" = none
    unfold indexInList
    rw [if_neg (by decide)]
    rfl
  | succ m ih =>
    rw [List.replicate_succ, List.cons_append]
    unfold indexInList
    rw [if_neg (by decide), ih]
    rfl

/-- 1001-entry custom order for the C6 counterexample: the listed quest
"a" sits at index 1000. -/
def bigOrder : List String := List.replicate 1000 "x" ++ ["a"]

/-- Quest data for the C6 counterexample. -/
def bigData : List Quest := [{ id := some "a" }, { id := some "z" }]

/-- Progress for the C6 counterexample: both quests tracked and
incomplete, the big custom order installed. -/
def bigDoc : QuestProgressDoc :=
  { quests := [("a", { is_tracked := true }), ("z", { is_tracked := true })],
    quest_order := bigOrder }

/-- Merged row of quest "a" in the C6 counterexample. -/
def aInfo : QuestInfo :=
  { id := "a", name := .jnone, objectives := [], is_completed := false,
    is_tracked := true, objectives_completed := [] }

/-- Merged row of quest "z" in the C6 counterexample. -/
def zInfo : QuestInfo :=
  { id := "z", name := .jnone, objectives := [], is_completed := false,
    is_tracked := true, objectives_completed := [] }

/-- C6 counterexample: with a custom order of 1001 entries, the listed
tracked quest "a" sits at index 1000 while the unlisted tracked quest "z"
receives the sentinel 999, so the unlisted quest sorts *before* the listed
one — the sentinel does not put unlisted quests after all listed ones. -/
theorem tracked_sort_sentinel_counterexample :
    (get_filtered_quests bigData bigDoc true).map QuestInfo.id = ["z", "a"] ∧
    "a" ∈ bigOrder ∧
    "z" ∉ bigOrder := by
  have hA : rank999 bigDoc.quest_order aInfo.id = 1000 := by
    unfold rank999
    rw [show aInfo.id = "a" from rfl,
      show bigDoc.quest_order = List.replicate 1000 "x" ++ ["a"] from rfl,
      indexInList_replicate_x_a]
    rfl
  have hZ : rank999 bigDoc.quest_order zInfo.id = 999 := by
    unfold rank999
    rw [show zInfo.id = "z" from rfl,
      show bigDoc.quest_order = List.replicate 1000 "x" ++ ["a"] from rfl,
      indexInList_replicate_x_z]
    rfl
  refine ⟨?_, ?_, ?_⟩
  · have hfb : (build_quest_infos bigData bigDoc).filter
        (fun q => q.is_tracked && !q.is_completed) = [aInfo, zInfo] := by decide
    have hstep : get_filtered_quests bigData bigDoc true
        = List.insertionSort
            (fun a b : QuestInfo =>
              rank999 bigDoc.quest_order a.id ≤ rank999 bigDoc.quest_order b.id)
            [aInfo, zInfo] := by
      simp only [get_filtered_quests, if_true]
      rw [hfb]
    rw [hstep]
    have hcond : ¬ (rank999 bigDoc.quest_order aInfo.id
        ≤ rank999 bigDoc.quest_order zInfo.id) := by
      rw [hA, hZ]
      omega
    have hins : List.insertionSort
        (fun a b : QuestInfo =>
          rank999 bigDoc.quest_order a.id ≤ rank999 bigDoc.quest_order b.id)
        [aInfo, zInfo] = [zInfo, aInfo] := by
      show List.orderedInsert
          (fun a b : QuestInfo =>
            rank999 bigDoc.quest_order a.id ≤ rank999 bigDoc.quest_order b.id)
          aInfo
          (List.orderedInsert
            (fun a b : QuestInfo =>
              rank999 bigDoc.quest_order a.id ≤ rank999 bigDoc.quest_order b.id)
            zInfo []) = [zInfo, aInfo]
      rw [List.orderedInsert_nil]
      show (if rank999 bigDoc.quest_order aInfo.id
            ≤ rank999 bigDoc.quest_order zInfo.id then
          [aInfo, zInfo]
        else zInfo :: List.orderedInsert
          (fun a b : QuestInfo =>
            rank999 bigDoc.quest_order a.id ≤ rank999 bigDoc.quest_order b.id)
          aInfo []) = [zInfo, aInfo]
      rw [if_neg hcond, List.orderedInsert_nil]
    rw [hins]
    rfl
  · exact List.mem_append.mpr (Or.inr (List.mem_singleton.mpr rfl))
  · intro h
    rcases List.mem_append.mp h with h1 | h1
    · exact absurd (List.eq_of_mem_replicate h1) (by decide)
    · rw [List.mem_singleton] at h1
      exact absurd h1 (by decide)

/-- C6 (amended): with `trackedOnly = True`, `get_filtered_quests` returns
exactly the tracked-and-incomplete quest rows — never an untracked one,
even if listed in the custom order — sorted solely by the rank
`custom_order.index(id) if listed else 999` (stably, ties in encounter
order); whenever the custom order holds at most 999 entries the sentinel
places every unlisted quest after all listed ones. -/
theorem get_filtered_quests_tracked (quest_data : List Quest)
    (doc : QuestProgressDoc) :
    (get_filtered_quests quest_data doc true).Perm
      ((build_quest_infos quest_data doc).filter
        (fun q => q.is_tracked && !q.is_completed)) ∧
    (∀ q ∈ get_filtered_quests quest_data doc true,
      q.is_tracked = true ∧ q.is_completed = false) ∧
    (get_filtered_quests quest_data doc true).Pairwise
      (fun a b => rank999 doc.quest_order a.id ≤ rank999 doc.quest_order b.id) ∧
    (∀ k, (get_filtered_quests quest_data doc true).filter
        (fun q => decide (rank999 doc.quest_order q.id = k))
      = (build_quest_infos quest_data doc).filter
        (fun q => decide (rank999 doc.quest_order q.id = k)
          && (q.is_tracked && !q.is_completed))) ∧
    (doc.quest_order.length ≤ 999 →
      (get_filtered_quests quest_data doc true).Pairwise
        (fun a b => (indexInList doc.quest_order b.id).isSome = true →
          (indexInList doc.quest_order a.id).isSome = true)) := by
  have hunfold : get_filtered_quests quest_data doc true
      = List.insertionSort
          (fun a b => rank999 doc.quest_order a.id ≤ rank999 doc.quest_order b.id)
          ((build_quest_infos quest_data doc).filter
            (fun q => q.is_tracked && !q.is_completed)) := by
    simp [get_filtered_quests]
  have hperm : (get_filtered_quests quest_data doc true).Perm
      ((build_quest_infos quest_data doc).filter
        (fun q => q.is_tracked && !q.is_completed)) := by
    rw [hunfold]
    exact List.perm_insertionSort _ _
  have hsorted : (get_filtered_quests quest_data doc true).Pairwise
      (fun a b => rank999 doc.quest_order a.id ≤ rank999 doc.quest_order b.id) := by
    rw [hunfold]
    haveI : IsTotal QuestInfo (fun a b =>
        rank999 doc.quest_order a.id ≤ rank999 doc.quest_order b.id) :=
      ⟨fun a b => Nat.le_total _ _⟩
    haveI : IsTrans QuestInfo (fun a b =>
        rank999 doc.quest_order a.id ≤ rank999 doc.quest_order b.id) :=
      ⟨fun _ _ _ h1 h2 => Nat.le_trans h1 h2⟩
    exact List.sorted_insertionSort _ _
  refine ⟨hperm, ?_, hsorted, ?_, ?_⟩
  · intro q hq
    have hmem := hperm.mem_iff.mp hq
    have hcond := List.of_mem_filter hmem
    constructor
    · exact (Bool.and_eq_true_iff.mp hcond).1
    · have := (Bool.and_eq_true_iff.mp hcond).2
      cases hc : q.is_completed
      · rfl
      · rw [hc] at this
        exact Bool.noConfusion this
  · intro k
    rw [hunfold]
    rw [filter_insertionSort _ _ (fun a b ha hb => by
      have hka := of_decide_eq_true ha
      have hkb := of_decide_eq_true hb
      rw [hka, hkb]) _]
    rw [List.filter_filter]
  · intro hlen
    refine hsorted.imp fun {a b} hab => ?_
    intro hbSome
    cases hia : indexInList doc.quest_order a.id with
    | some j => simp [hia]
    | none =>
      exfalso
      cases hib : indexInList doc.quest_order b.id with
      | none => simp [hib] at hbSome
      | some j =>
        have hj : j < doc.quest_order.length := indexInList_lt_length hib
        have h999 : rank999 doc.quest_order a.id = 999 := by simp [rank999, hia]
        have hbj : rank999 doc.quest_order b.id = j := by simp [rank999, hib]
        rw [h999, hbj] at hab
        omega

/-- Concrete quest list for the C6 witness. -/
def tData : List Quest :=
  [{ id := some "t1" }, { id := some "t2" }, { id := some "t3" }]

/-- Concrete progress for the C6 witness: all tracked, `t2` completed,
custom order `[t3, t1]`. -/
def tDoc : QuestProgressDoc :=
  { quests := [("t1", { is_tracked := true }),
               ("t2", { is_tracked := true, quest_completed := true }),
               ("t3", { is_tracked := true })],
    quest_order := ["t3", "t1"] }

/-- C6 witness: the tracked-only view on concrete data (completed `t2`
excluded, `t3` before `t1` by custom order), applied through the theorem
with a custom order well below the 999 sentinel. -/
theorem get_filtered_quests_tracked_witness :
    tDoc.quest_order.length ≤ 999 ∧
    (get_filtered_quests tData tDoc true).map QuestInfo.id = ["t3", "t1"] ∧
    ((get_filtered_quests tData tDoc true).Perm
        ((build_quest_infos tData tDoc).filter
          (fun q => q.is_tracked && !q.is_completed)) ∧
      (∀ q ∈ get_filtered_quests tData tDoc true,
        q.is_tracked = true ∧ q.is_completed = false) ∧
      (get_filtered_quests tData tDoc true).Pairwise
        (fun a b => rank999 tDoc.quest_order a.id ≤ rank999 tDoc.quest_order b.id) ∧
      (∀ k, (get_filtered_quests tData tDoc true).filter
          (fun q => decide (rank999 tDoc.quest_order q.id = k))
        = (build_quest_infos tData tDoc).filter
          (fun q => decide (rank999 tDoc.quest_order q.id = k)
            && (q.is_tracked && !q.is_completed))) ∧
      (tDoc.quest_order.length ≤ 999 →
        (get_filtered_quests tData tDoc true).Pairwise
          (fun a b => (indexInList tDoc.quest_order b.id).isSome = true →
            (indexInList tDoc.quest_order a.id).isSome = true))) :=
  ⟨by decide, by decide, get_filtered_quests_tracked tData tDoc⟩

end ArcCompanion
